import Mathlib

/-!
Verification of the SVG-to-React-component code generator
(src/utils/svgConverter.ts, re-exported through src/types/messages.ts).

The TypeScript source is shallowly embedded below:

* strings are Lean Strings; the inner algorithms work on their
  List Char data so that everything is executable and kernel-reducible;
* a DOM Element is modelled by the inductive Elem: tag name, the ordered
  attribute list, the child list, and the node's textContent (the source
  only reads textContent on childless nodes);
* the JavaScript regular-expression replace with pattern
  attr="[^"]*" and the g flag is embedded as the fuel-indexed scanner
  scanF, which walks the text left to right, replaces each
  (non-overlapping, leftmost, greedy-up-to-the-first-quote) match and
  resumes after it, exactly as the JS regex engine does for this pattern;
  the replacement string of the source contains no dollar sign, so JS
  dollar-substitution in the replacement is not modelled;
* JavaScript String.prototype.trim / trimEnd are modelled with an ASCII
  whitespace set (space, tab, line feed, carriage return, vertical tab,
  form feed); the source never feeds the generator non-ASCII whitespace.
-/

/-- The ASCII whitespace characters recognised by the model of
JavaScript trim and trimEnd. -/
def isWSChar (c : Char) : Bool :=
  c = ' ' || c = '\t' || c = '\n' || c = '\r' || c = '\x0b' || c = '\x0c'

/-- JavaScript String.prototype.trimEnd on a character list. -/
def trimEndL (l : List Char) : List Char :=
  (l.reverse.dropWhile isWSChar).reverse

/-- JavaScript String.prototype.trim on a character list. -/
def trimBothL (l : List Char) : List Char :=
  trimEndL (l.dropWhile isWSChar)

/-- JavaScript String.prototype.trim. -/
def trimStr (s : String) : String :=
  ⟨trimBothL s.data⟩

/-- ASCII lower-casing of one character (String.prototype.toLowerCase
on the ASCII tag names the source deals with). -/
def toLowerAscii (c : Char) : Char :=
  if 'A' ≤ c ∧ c ≤ 'Z' then Char.ofNat (c.toNat + 32) else c

/-- String.prototype.toLowerCase (ASCII). -/
def lowerStr (s : String) : String :=
  ⟨s.data.map toLowerAscii⟩

/-- JavaScript String.prototype.repeat: '  '.repeat(indent). -/
def repeatStr (s : String) (n : Nat) : String :=
  String.join (List.replicate n s)

/-- The attribute-name translation table attributeMap of the source,
as the association list of its entries in source order. -/
def attributeMap : List (String × String) :=
  [("class", "className"),
   ("for", "htmlFor"),
   ("stroke-width", "strokeWidth"),
   ("stroke-linecap", "strokeLinecap"),
   ("stroke-linejoin", "strokeLinejoin"),
   ("stroke-dasharray", "strokeDasharray"),
   ("stroke-dashoffset", "strokeDashoffset"),
   ("fill-opacity", "fillOpacity"),
   ("stroke-opacity", "strokeOpacity"),
   ("fill-rule", "fillRule"),
   ("clip-rule", "clipRule"),
   ("stroke-miterlimit", "strokeMiterlimit"),
   ("font-family", "fontFamily"),
   ("font-size", "fontSize"),
   ("font-weight", "fontWeight"),
   ("text-anchor", "textAnchor"),
   ("dominant-baseline", "dominantBaseline"),
   ("alignment-baseline", "alignmentBaseline"),
   ("baseline-shift", "baselineShift"),
   ("stop-color", "stopColor"),
   ("stop-opacity", "stopOpacity"),
   ("xmlns:xlink", "xmlnsXlink"),
   ("xlink:href", "xlinkHref")]

/-- attributeMap[name] || name : look the name up, keep it when absent
(none of the mapped values is empty, so JS falsiness is plain absence). -/
def translateAttr (n : String) : String :=
  match attributeMap.find? (fun p => p.1 = n) with
  | some p => p.2
  | none => n

/-- value.replace(/"/g, '\\"') : prefix every double quote with a
backslash. -/
def escAttrL : List Char → List Char
  | [] => []
  | c :: cs => (if c = '"' then ['\\', '"'] else [c]) ++ escAttrL cs

/-- Same escaping on Strings. -/
def escAttr (v : String) : String :=
  ⟨escAttrL v.data⟩

/-- The body of the attribute loop of convertAttributes after the
namespace skip: translate the name, then render either a bare boolean
attribute (value empty or equal to the translated name) or
name="escaped-value". -/
def attrPiece (n v : String) : String :=
  let name := translateAttr n
  if v = "" ∨ v = name then name
  else name ++ "=\"" ++ escAttr v ++ "\""

/-- convertAttributes: iterate over the attribute (name, value) pairs,
skip xmlns and xmlns:svg, push the rendered piece of every other
attribute, and join the pieces with single spaces. -/
def convertAttributes (attrs : List (String × String)) : String :=
  String.intercalate " "
    (attrs.foldl
      (fun acc p =>
        if p.1 = "xmlns" ∨ p.1 = "xmlns:svg" then acc
        else acc ++ [attrPiece p.1 p.2])
      [])

/-- A DOM element as the source reads it: tagName, the ordered attribute
(name, value) list, the child elements, and textContent (only consulted
when the child list is empty, matching the source's use). -/
inductive Elem where
  | mk (tagName : String) (attrs : List (String × String)) (children : List Elem) (text : String)

def Elem.tagName : Elem → String
  | .mk t _ _ _ => t

def Elem.attrs : Elem → List (String × String)
  | .mk _ a _ _ => a

def Elem.children : Elem → List Elem
  | .mk _ _ c _ => c

def Elem.text : Elem → String
  | .mk _ _ _ t => t

mutual

/-- elementToJSX: recursively render an element and its descendants into
indented nested-tag text (self-closing tag for childless elements with
blank text, one-line tag around trimmed text, otherwise the open tag,
the children at indent+1 and the close tag joined by newlines). -/
def elementToJSX : Elem → Nat → String
  | .mk tag attrs children text, indent =>
    let indentStr := repeatStr "  " indent
    let tagName := lowerStr tag
    let attributes := convertAttributes attrs
    let attrStr := if attributes = "" then "" else " " ++ attributes
    if children.isEmpty && trimStr text = "" then
      indentStr ++ "<" ++ tagName ++ attrStr ++ " />"
    else
      let openTag := indentStr ++ "<" ++ tagName ++ attrStr ++ ">"
      let closeTag := indentStr ++ "</" ++ tagName ++ ">"
      if children.isEmpty then
        if trimStr text ≠ "" then
          indentStr ++ "<" ++ tagName ++ attrStr ++ ">" ++ trimStr text ++ "</" ++ tagName ++ ">"
        else
          indentStr ++ "<" ++ tagName ++ attrStr ++ " />"
      else
        String.intercalate "\n" (openTag :: (childListJSX children (indent + 1) ++ [closeTag]))

/-- The children.map of elementToJSX, unfolded for structural
recursion. -/
def childListJSX : List Elem → Nat → List String
  | [], _ => []
  | c :: cs, indent => elementToJSX c indent :: childListJSX cs indent

end

/-- The output dialect: 'tsx' | 'jsx'. -/
inductive Format where
  | tsx
  | jsx
deriving DecidableEq

/-- The optional addProps record of ConversionOptions; a missing flag is
falsy, matching options.addProps?.flag. -/
structure AddProps where
  width : Bool
  height : Bool
  className : Bool
  color : Bool

/-- ConversionOptions of the source. -/
structure ConversionOptions where
  format : Format
  componentName : String
  addProps : Option AddProps

/-- options.addProps?.width, as a Bool. -/
def flagWidth (o : ConversionOptions) : Bool :=
  (o.addProps.map AddProps.width).getD false

/-- options.addProps?.height, as a Bool. -/
def flagHeight (o : ConversionOptions) : Bool :=
  (o.addProps.map AddProps.height).getD false

/-- options.addProps?.className, as a Bool. -/
def flagClassName (o : ConversionOptions) : Bool :=
  (o.addProps.map AddProps.className).getD false

/-- options.addProps?.color, as a Bool. -/
def flagColor (o : ConversionOptions) : Bool :=
  (o.addProps.map AddProps.color).getD false

/-- PropConfig of the source: name, type annotation text, optional
default value text. -/
structure PropConfig where
  name : String
  type : String
  defaultValue : Option String

/-- The four conditional pushes at the top of generatePropTypes: the
props array and the propsUsage record (as the association list of its
insertions, in insertion order width, height, className, fill, stroke). -/
def buildPropsUsage (o : ConversionOptions) : List PropConfig × List (String × String) :=
  let s0 : List PropConfig × List (String × String) := ([], [])
  let s1 := if flagWidth o then
      (s0.1 ++ [⟨"width", "number | string", some "24"⟩], s0.2 ++ [("width", "\x7bwidth\x7d")])
    else s0
  let s2 := if flagHeight o then
      (s1.1 ++ [⟨"height", "number | string", some "24"⟩], s1.2 ++ [("height", "\x7bheight\x7d")])
    else s1
  let s3 := if flagClassName o then
      (s2.1 ++ [⟨"className", "string", none⟩], s2.2 ++ [("className", "\x7bclassName\x7d")])
    else s2
  let s4 := if flagColor o then
      (s3.1 ++ [⟨"color", "string", some "\"currentColor\""⟩],
       s3.2 ++ [("fill", "\x7bcolor\x7d"), ("stroke", "\x7bcolor\x7d")])
    else s3
  s4

/-- generatePropTypes: the props interface text (typed dialect only),
the destructuring parameter text, and the usage map. -/
def generatePropTypes (o : ConversionOptions) : String × String × List (String × String) :=
  let props := (buildPropsUsage o).1
  let propsUsage := (buildPropsUsage o).2
  if props.length = 0 then ("", "", [])
  else
    let isTsx := o.format = Format.tsx
    let propsInterface :=
      if isTsx then
        "interface " ++ o.componentName ++ "Props \x7b\n  " ++
          String.intercalate "\n  " (props.map (fun p => p.name ++ "?: " ++ p.type ++ ";")) ++
          "\n\x7d\n\n"
      else ""
    let propsDestructure :=
      "\x7b " ++
        String.intercalate ", "
          (props.map (fun p =>
            match p.defaultValue with
            | some d => p.name ++ " = " ++ d
            | none => p.name)) ++
        " \x7d" ++
        (if isTsx then ": " ++ o.componentName ++ "Props" else "")
    (propsInterface, propsDestructure, propsUsage)

/-- Literal-pattern matcher: consume pat at the head of s, returning the
rest on success. -/
def patDrop : List Char → List Char → Option (List Char)
  | [], s => some s
  | _ :: _, [] => none
  | p :: ps, c :: cs => if p = c then patDrop ps cs else none

/-- The [^"]*" tail of the regex: consume characters up to and
including the first double quote; none when no quote remains. -/
def quoteScan : List Char → Option (List Char)
  | [] => none
  | c :: cs => if c = '"' then some cs else quoteScan cs

/-- Try to match the regex attr="[^"]*" at the head of s, returning the
text after the match. -/
def tryMatchAt (attr : List Char) (s : List Char) : Option (List Char) :=
  match patDrop (attr ++ ['=', '"']) s with
  | none => none
  | some rest => quoteScan rest

/-- result.replace(regex, repl) for the global regex attr="[^"]*" :
walk left to right, replace every leftmost match and resume after it.
The fuel argument dominates the text length, so the zero-fuel branch is
never reached from replaceAttrAll. -/
def scanF (attr repl : List Char) : Nat → List Char → List Char
  | 0, s => s
  | _ + 1, [] => []
  | fuel + 1, c :: cs =>
    match tryMatchAt attr (c :: cs) with
    | some rest => repl ++ scanF attr repl fuel rest
    | none => c :: scanF attr repl fuel cs

/-- One iteration of the applyPropsToSVG loop:
result.replace(new RegExp(attr + '="[^"]*"', 'g'), attr + '=' + propValue). -/
def replaceAttrAll (attr propValue : String) (s : String) : String :=
  ⟨scanF attr.data (attr.data ++ '=' :: propValue.data) s.data.length s.data⟩

/-- applyPropsToSVG: fold the replacement over the usage-map entries in
insertion order. -/
def applyPropsToSVG (svgString : String) (propsUsage : List (String × String)) : String :=
  propsUsage.foldl (fun result p => replaceAttrAll p.1 p.2 result) svgString

/-- convertSVGToComponent: generate the prop texts, serialize the tree
at indent 1, apply the prop replacements when the usage map is
non-empty, and assemble the final component source text. -/
def convertSVGToComponent (svgElement : Elem) (options : ConversionOptions) : String :=
  let pieces := generatePropTypes options
  let propsInterface := pieces.1
  let propsDestructure := pieces.2.1
  let propsUsage := pieces.2.2
  let jsxContent0 := elementToJSX svgElement 1
  let jsxContent :=
    if propsUsage.length > 0 then applyPropsToSVG jsxContent0 propsUsage else jsxContent0
  let exportType := "export"
  let functionParams := if propsDestructure ≠ "" then propsDestructure else ""
  propsInterface ++ exportType ++ " function " ++ options.componentName ++ "(" ++
    functionParams ++ ") \x7b\n  return (\n" ++ jsxContent ++ "\n  );\n\x7d"

/-- formatCode: split on line feeds, trim the end of every line, join,
trim the whole text, and append one final newline. -/
def splitNl : List Char → List (List Char)
  | [] => [[]]
  | c :: cs =>
    let r := splitNl cs
    if c = '\n' then [] :: r
    else
      match r with
      | [] => [[c]]
      | g :: gs => (c :: g) :: gs

/-- join('\n') on character-list lines. -/
def joinNl : List (List Char) → List Char
  | [] => []
  | [l] => l
  | l :: ls => l ++ '\n' :: joinNl ls

/-- The per-line stage of formatCode: split on line feeds, trim the end
of every line, join with line feeds. -/
def trimLinesL (x : List Char) : List Char :=
  joinNl ((splitNl x).map trimEndL)

/-- formatCode of the source: per-line trailing trim, whole-text trim,
one final newline. -/
def formatCode (code : String) : String :=
  ⟨trimBothL (trimLinesL code.data) ++ ['\n']⟩

set_option maxRecDepth 80000

/-! ## Generic text helpers used by the statements -/

/-- Does the second list start with the first? -/
def startsWithL : List Char → List Char → Bool
  | [], _ => true
  | _ :: _, [] => false
  | p :: ps, c :: cs => p = c && startsWithL ps cs

/-- Does the needle occur anywhere in the hay? -/
def containsL : List Char → List Char → Bool
  | needle, [] => startsWithL needle []
  | needle, c :: cs => startsWithL needle (c :: cs) || containsL needle cs

/-- Substring test on Strings. -/
def containsB (needle hay : String) : Bool :=
  containsL needle.data hay.data

/-! ## Definitions written from the specification's words, for the
refinement-style claims -/

/-- Modelled from the spec (4.2/4.1): per-attribute rendering — skip the
namespace declarations xmlns and xmlns:svg, translate the name through
the table, render a bare boolean attribute when the value is empty or
equals the translated name, otherwise name="escaped-value". -/
def renderAttrSpec (p : String × String) : Option String :=
  if p.1 = "xmlns" ∨ p.1 = "xmlns:svg" then none
  else
    let name := translateAttr p.1
    some (if p.2 = "" ∨ p.2 = name then name
          else name ++ "=\"" ++ escAttr p.2 ++ "\"")

/-- Modelled from the spec (4.3): the names of the requested props in
the fixed precedence width, height, className, color. -/
def propOrderSpec (o : ConversionOptions) : List String :=
  (if flagWidth o then ["width"] else []) ++
  (if flagHeight o then ["height"] else []) ++
  (if flagClassName o then ["className"] else []) ++
  (if flagColor o then ["color"] else [])

/-- Modelled from the spec (4.3): the usage-map entries contributed by
each flag, in the same precedence; color alone contributes two entries
(fill and stroke), both with the same reference text. -/
def usageSpec (o : ConversionOptions) : List (String × String) :=
  (if flagWidth o then [("width", "\x7bwidth\x7d")] else []) ++
  (if flagHeight o then [("height", "\x7bheight\x7d")] else []) ++
  (if flagClassName o then [("className", "\x7bclassName\x7d")] else []) ++
  (if flagColor o then [("fill", "\x7bcolor\x7d"), ("stroke", "\x7bcolor\x7d")] else [])

/-- Is any addProps flag set? -/
def anyFlag (o : ConversionOptions) : Bool :=
  flagWidth o || flagHeight o || flagClassName o || flagColor o

/-- Modelled from JSX/HTML attribute-value syntax, for the escaping
claim: a double-quoted attribute value extends to the first double
quote; a backslash is an ordinary character there (JSX attribute text
has no backslash escapes). Returns the value read and the text after
the closing quote, or none when no quote remains. -/
def jsxValScan : List Char → Option (List Char × List Char)
  | [] => none
  | c :: cs =>
    if c = '"' then some ([], cs)
    else (jsxValScan cs).map (fun p => (c :: p.1, p.2))

/-! ## A segment model of the templating pass's input, for the global
rewriting claim -/

/-- A segment of serialized body text, as seen by one pass of
applyPropsToSVG: plain text, an intact attribute occurrence
name="value", or an already-templated attribute name=reference. -/
inductive Tok where
  | gap (s : List Char)
  | attr (n : List Char) (v : List Char)
  | done (n : List Char) (r : List Char)

/-- The text of one segment. -/
def renderTok : Tok → List Char
  | .gap s => s
  | .attr n v => n ++ '=' :: '"' :: (v ++ ['"'])
  | .done n r => n ++ '=' :: r

/-- The text of a segment list. -/
def renderToks : List Tok → List Char
  | [] => []
  | t :: ts => renderTok t ++ renderToks ts

/-- What one pass for key k with reference pv does to a segment:
it templates exactly the attribute segments named k. -/
def stepTok (k pv : List Char) : Tok → Tok
  | .attr n v => if n = k then .done n pv else .attr n v
  | t => t

/-- One pass over the segment list. -/
def passToks (k pv : List Char) (toks : List Tok) : List Tok :=
  toks.map (stepTok k pv)

/-- No occurrence of pat begins at any position inside t (looking ahead
into the following text rest where an occurrence could span the
boundary). -/
def noStartIn (pat : List Char) : List Char → List Char → Bool
  | [], _ => true
  | c :: t, rest => !startsWithL pat (c :: (t ++ rest)) && noStartIn pat t rest

/-- Non-interference condition for one pass with key k: every attribute
segment named k has a quote-free value, and the pattern k="... begins
nowhere inside any other segment. -/
def passOK (k : List Char) : List Tok → Bool
  | [] => true
  | .attr n v :: ts =>
    (if n = k then !List.contains v '"'
     else noStartIn (k ++ ['=', '"']) (renderTok (.attr n v)) (renderToks ts)) &&
      passOK k ts
  | t :: ts => noStartIn (k ++ ['=', '"']) (renderTok t) (renderToks ts) && passOK k ts

/-- Non-interference for the whole entry list, pass after pass. -/
def passesOK : List (String × String) → List Tok → Bool
  | [], _ => true
  | (k, pv) :: es, toks => passOK k.data toks && passesOK es (passToks k.data pv.data toks)

/-- The segment list after all passes. -/
def foldToks (entries : List (String × String)) (toks : List Tok) : List Tok :=
  entries.foldl (fun t p => passToks p.1.data p.2.data t) toks

/-- Every line of x is unchanged by trimming trailing whitespace. -/
def allLinesFixed (x : List Char) : Prop :=
  ∀ l ∈ splitNl x, trimEndL l = l

/-! ## Concrete inputs used by the claim statements -/

/-- The round-trip element of the spec: an svg root with width, height,
viewBox and fill, and one path child with d and fill. -/
def roundTripElem : Elem :=
  .mk "svg"
    [("width", "24"), ("height", "24"), ("viewBox", "0 0 24 24"), ("fill", "none")]
    [.mk "path" [("d", "M12 2L2 7L12 12L22 7L12 2Z"), ("fill", "currentColor")] [] ""]
    ""

/-- The round-trip options: tsx, MyIcon, all four prop flags. -/
def roundTripOpts : ConversionOptions :=
  ⟨Format.tsx, "MyIcon", some ⟨true, true, true, true⟩⟩

/-- An element whose title value ends with the text width= ; serializing
it and running the templating pass shows a match spanning two
attributes. -/
def spanElem : Elem :=
  .mk "svg" [("title", "use width="), ("height", "24")] [] ""

/-- Options requesting the width and height props. -/
def spanOpts : ConversionOptions :=
  ⟨Format.tsx, "Icon", some ⟨true, true, false, false⟩⟩

/-- An element carrying a data-width attribute. -/
def dataWidthElem : Elem :=
  .mk "svg" [("data-width", "5")] [] ""

/-- Options requesting only the width prop. -/
def widthOnlyOpts : ConversionOptions :=
  ⟨Format.tsx, "Icon", some ⟨true, false, false, false⟩⟩

/-- A segment list with two fill attribute occurrences on different
elements of one serialized body. -/
def fillToks : List Tok :=
  [Tok.gap ("<svg ".data), Tok.attr ("fill".data) ("none".data),
   Tok.gap (">\n  <path ".data), Tok.attr ("fill".data) ("currentColor".data),
   Tok.gap (" />\n</svg>".data)]

/-- The usage-map entries for a map sending fill to the color
reference. -/
def fillEntries : List (String × String) := [("fill", "\x7bcolor\x7d")]

/-! ## Helper lemmas -/

theorem renderAttrSpec_eq (p : String × String) :
    renderAttrSpec p
      = if p.1 = "xmlns" ∨ p.1 = "xmlns:svg" then none else some (attrPiece p.1 p.2) := by
  unfold renderAttrSpec attrPiece
  split
  · rfl
  · simp only [apply_ite some]

theorem convertAttributes_foldl (attrs : List (String × String)) : ∀ acc : List String,
    attrs.foldl
      (fun acc p =>
        if p.1 = "xmlns" ∨ p.1 = "xmlns:svg" then acc
        else acc ++ [attrPiece p.1 p.2])
      acc
      = acc ++ attrs.filterMap renderAttrSpec := by
  induction attrs with
  | nil => intro acc; simp
  | cons p attrs ih =>
    intro acc
    simp only [List.foldl_cons, List.filterMap_cons, renderAttrSpec_eq]
    by_cases h : p.1 = "xmlns" ∨ p.1 = "xmlns:svg"
    · rw [if_pos h, if_pos h, ih]
    · rw [if_neg h, if_neg h, ih]
      simp

theorem startsWithL_self_append (n w : List Char) : startsWithL n (n ++ w) = true := by
  induction n with
  | nil => rfl
  | cons c cs ih => simp [startsWithL, ih]

theorem containsL_self_append (n w : List Char) : containsL n (n ++ w) = true := by
  cases hnw : n ++ w with
  | nil =>
    rcases List.append_eq_nil.mp hnw with ⟨hn, -⟩
    subst hn
    rfl
  | cons c cs =>
    simp only [containsL]
    rw [← hnw, startsWithL_self_append]
    rfl

theorem containsL_of_mid (u n w : List Char) : containsL n (u ++ (n ++ w)) = true := by
  induction u with
  | nil => rw [List.nil_append]; exact containsL_self_append n w
  | cons a u ih =>
    rw [List.cons_append, containsL, ih]
    simp

theorem escAttrL_id (v : List Char) (h : ∀ c ∈ v, c ≠ '"') : escAttrL v = v := by
  induction v with
  | nil => rfl
  | cons c cs ih =>
    rw [escAttrL, if_neg (h c (List.mem_cons_self c cs)), ih (fun d hd => h d (List.mem_cons_of_mem c hd))]
    rfl

theorem str_app_nil (s : String) : s ++ "" = s := by
  apply String.ext
  rw [String.data_append]
  exact List.append_nil s.data

theorem str_nil_app (s : String) : "" ++ s = s := rfl

theorem str_data_ne_of_app_left (a b : String) (h : a.data ≠ []) : (a ++ b).data ≠ [] := by
  rw [String.data_append]
  intro hc
  exact h (List.append_eq_nil.mp hc).1

theorem str_ne_empty_of_data (s : String) (h : s.data ≠ []) : s ≠ "" := by
  intro he
  rw [he] at h
  exact h rfl

theorem intercalate_go_data (sep : String) : ∀ (as : List String) (acc : String),
    ∃ w, (String.intercalate.go acc sep as).data = acc.data ++ w := by
  intro as
  induction as with
  | nil => intro acc; exact ⟨[], (List.append_nil acc.data).symm⟩
  | cons a as ih =>
    intro acc
    obtain ⟨w, hw⟩ := ih (acc ++ sep ++ a)
    refine ⟨sep.data ++ a.data ++ w, ?_⟩
    rw [String.intercalate.go, hw]
    simp [String.data_append]

theorem intercalate_go_mid (sep x : String) (post : List String) :
    ∀ (pre : List String) (acc : String),
    ∃ u w, (String.intercalate.go acc sep (pre ++ x :: post)).data = u ++ (x.data ++ w) := by
  intro pre
  induction pre with
  | nil =>
    intro acc
    obtain ⟨w, hw⟩ := intercalate_go_data sep post (acc ++ sep ++ x)
    refine ⟨acc.data ++ sep.data, w, ?_⟩
    rw [List.nil_append, String.intercalate.go, hw]
    simp [String.data_append]
  | cons p pre ih =>
    intro acc
    obtain ⟨u, w, hw⟩ := ih (acc ++ sep ++ p)
    exact ⟨u, w, by rw [List.cons_append, String.intercalate.go, hw]⟩

theorem intercalate_mid (sep x : String) (pre post : List String) :
    ∃ u w, (String.intercalate sep (pre ++ x :: post)).data = u ++ (x.data ++ w) := by
  cases pre with
  | nil =>
    obtain ⟨w, hw⟩ := intercalate_go_data sep post x
    exact ⟨[], w, by rw [List.nil_append, String.intercalate, hw]; rfl⟩
  | cons p pre =>
    obtain ⟨u, w, hw⟩ := intercalate_go_mid sep x post pre p
    exact ⟨u, w, by rw [List.cons_append, String.intercalate, hw]⟩

theorem patDrop_self_append (p : List Char) : ∀ t, patDrop p (p ++ t) = some t := by
  induction p with
  | nil => intro t; rfl
  | cons c cs ih => intro t; simp [patDrop, ih]

theorem patDrop_none_of_not_starts (p : List Char) :
    ∀ s, startsWithL p s = false → patDrop p s = none := by
  induction p with
  | nil => intro s h; simp [startsWithL] at h
  | cons c cs ih =>
    intro s h
    cases s with
    | nil => rfl
    | cons a as =>
      simp only [startsWithL, Bool.and_eq_false_iff] at h
      simp only [patDrop]
      rcases h with h | h
      · rw [if_neg]
        intro hc
        rw [hc] at h
        simp [decide_eq_false_iff_not] at h
      · by_cases hc : c = a
        · rw [if_pos hc]
          exact ih as h
        · rw [if_neg hc]

theorem patDrop_length (p : List Char) :
    ∀ s r, patDrop p s = some r → r.length + p.length = s.length := by
  induction p with
  | nil =>
    intro s r h
    simp only [patDrop, Option.some.injEq] at h
    rw [h]
    rfl
  | cons c cs ih =>
    intro s r h
    cases s with
    | nil => simp [patDrop] at h
    | cons a as =>
      simp only [patDrop] at h
      by_cases hc : c = a
      · rw [if_pos hc] at h
        have := ih as r h
        simp only [List.length_cons]
        omega
      · rw [if_neg hc] at h
        exact absurd h (by simp)

theorem quoteScan_append (v : List Char) :
    ∀ t, (∀ c ∈ v, c ≠ '"') → quoteScan (v ++ '"' :: t) = some t := by
  induction v with
  | nil => intro t _; simp [quoteScan]
  | cons c cs ih =>
    intro t h
    rw [List.cons_append, quoteScan, if_neg (h c (List.mem_cons_self c cs))]
    exact ih t (fun d hd => h d (List.mem_cons_of_mem c hd))

theorem quoteScan_length (s : List Char) :
    ∀ r, quoteScan s = some r → r.length < s.length := by
  induction s with
  | nil => intro r h; simp [quoteScan] at h
  | cons c cs ih =>
    intro r h
    rw [quoteScan] at h
    by_cases hc : c = '"'
    · rw [if_pos hc] at h
      injection h with h
      rw [← h]
      simp
    · rw [if_neg hc] at h
      have := ih r h
      simp only [List.length_cons]
      omega

theorem tryMatchAt_none_of_not_starts (attr s : List Char)
    (h : startsWithL (attr ++ ['=', '"']) s = false) : tryMatchAt attr s = none := by
  rw [tryMatchAt, patDrop_none_of_not_starts _ s h]

theorem tryMatchAt_match (attr v rest : List Char) (hv : ∀ c ∈ v, c ≠ '"') :
    tryMatchAt attr (attr ++ '=' :: '"' :: (v ++ '"' :: rest)) = some rest := by
  have hsplit : attr ++ '=' :: '"' :: (v ++ '"' :: rest)
      = (attr ++ ['=', '"']) ++ (v ++ '"' :: rest) := by
    simp
  rw [tryMatchAt, hsplit, patDrop_self_append]
  exact quoteScan_append v rest hv

theorem tryMatchAt_some_length (attr s rest : List Char) (h : tryMatchAt attr s = some rest) :
    rest.length < s.length := by
  rw [tryMatchAt] at h
  cases hp : patDrop (attr ++ ['=', '"']) s with
  | none => rw [hp] at h; exact absurd h (by simp)
  | some r =>
    rw [hp] at h
    have h1 := patDrop_length _ s r hp
    have h2 := quoteScan_length r rest h
    have h3 : (attr ++ ['=', '"']).length = attr.length + 2 := by simp
    omega

theorem scanF_nil (attr repl : List Char) (fuel : Nat) : scanF attr repl fuel [] = [] := by
  cases fuel <;> rfl

theorem scanF_match_head (attr repl : List Char) (fuel : Nat) (s rest : List Char)
    (hs : s ≠ []) (hm : tryMatchAt attr s = some rest) :
    scanF attr repl (fuel + 1) s = repl ++ scanF attr repl fuel rest := by
  cases s with
  | nil => exact absurd rfl hs
  | cons c cs => simp [scanF, hm]

theorem scanF_walk (attr repl : List Char) : ∀ (w rest : List Char) (fuel : Nat),
    w.length + rest.length ≤ fuel →
    noStartIn (attr ++ ['=', '"']) w rest = true →
    scanF attr repl fuel (w ++ rest) = w ++ scanF attr repl (fuel - w.length) rest := by
  intro w
  induction w with
  | nil => intro rest fuel _ _; simp
  | cons c w ih =>
    intro rest fuel hf hno
    simp only [noStartIn, Bool.and_eq_true, Bool.not_eq_true'] at hno
    obtain ⟨hno1, hno2⟩ := hno
    cases fuel with
    | zero => simp only [List.length_cons] at hf; omega
    | succ f =>
      have hm : tryMatchAt attr (c :: (w ++ rest)) = none :=
        tryMatchAt_none_of_not_starts attr _ hno1
      rw [List.cons_append]
      simp only [scanF, hm]
      rw [ih rest f (by simp only [List.length_cons] at hf; omega) hno2]
      simp only [List.length_cons, Nat.succ_sub_succ, List.cons_append]

theorem renderToks_cons (t : Tok) (ts : List Tok) :
    renderToks (t :: ts) = renderTok t ++ renderToks ts := rfl

theorem scanF_pass (k pv : List Char) : ∀ (toks : List Tok) (fuel : Nat),
    (renderToks toks).length ≤ fuel → passOK k toks = true →
    scanF k (k ++ '=' :: pv) fuel (renderToks toks) = renderToks (passToks k pv toks) := by
  intro toks
  induction toks with
  | nil => intro fuel _ _; simp [renderToks, passToks, scanF_nil]
  | cons t ts ih =>
    intro fuel hf hok
    rw [renderToks_cons, List.length_append] at hf
    cases t with
    | gap s =>
      simp only [passOK, Bool.and_eq_true] at hok
      obtain ⟨hno, hts⟩ := hok
      rw [renderToks_cons, scanF_walk k (k ++ '=' :: pv) _ _ fuel hf hno,
        ih (fuel - (renderTok (Tok.gap s)).length) (by omega) hts]
      simp [passToks, stepTok, renderToks_cons]
    | done n r =>
      simp only [passOK, Bool.and_eq_true] at hok
      obtain ⟨hno, hts⟩ := hok
      rw [renderToks_cons, scanF_walk k (k ++ '=' :: pv) _ _ fuel hf hno,
        ih (fuel - (renderTok (Tok.done n r)).length) (by omega) hts]
      simp [passToks, stepTok, renderToks_cons]
    | attr n v =>
      by_cases hn : n = k
      · subst hn
        simp only [passOK, eq_self_iff_true, if_true, Bool.and_eq_true, Bool.not_eq_true'] at hok
        obtain ⟨hv', hts⟩ := hok
        have hv : ∀ c ∈ v, c ≠ '"' := by
          intro c hc he
          subst he
          rw [show List.contains v '"' = List.elem '"' v from rfl,
            List.elem_eq_true_of_mem hc] at hv'
          cases hv'
        have hshape : renderToks (Tok.attr n v :: ts)
            = n ++ '=' :: '"' :: (v ++ '"' :: renderToks ts) := by
          rw [renderToks_cons]
          simp [renderTok]
        cases fuel with
        | zero =>
          simp [renderTok] at hf
        | succ f =>
          rw [scanF_match_head n (n ++ '=' :: pv) f _ (renderToks ts)
            (by rw [hshape]; intro hc; exact absurd (congrArg List.length hc) (by simp))
            (by rw [hshape]; exact tryMatchAt_match n v (renderToks ts) hv)]
          rw [ih f (by simp [renderTok] at hf; omega) hts]
          simp [passToks, stepTok, renderToks_cons, renderTok]
      · simp only [passOK, if_neg hn, Bool.and_eq_true] at hok
        obtain ⟨hno, hts⟩ := hok
        rw [renderToks_cons, scanF_walk k (k ++ '=' :: pv) _ _ fuel hf hno,
          ih (fuel - (renderTok (Tok.attr n v)).length) (by omega) hts]
        simp [passToks, stepTok, hn, renderToks_cons]

theorem replaceAttrAll_toks (k pv : String) (toks : List Tok) (h : passOK k.data toks = true) :
    replaceAttrAll k pv ⟨renderToks toks⟩ = ⟨renderToks (passToks k.data pv.data toks)⟩ := by
  rw [replaceAttrAll]
  apply String.ext
  exact scanF_pass k.data pv.data toks (renderToks toks).length (Nat.le_refl _) h

theorem applyProps_toks : ∀ (entries : List (String × String)) (toks : List Tok),
    passesOK entries toks = true →
    applyPropsToSVG ⟨renderToks toks⟩ entries = ⟨renderToks (foldToks entries toks)⟩ := by
  intro entries
  induction entries with
  | nil => intro toks _; rfl
  | cons e es ih =>
    intro toks h
    obtain ⟨k, pv⟩ := e
    simp only [passesOK, Bool.and_eq_true] at h
    obtain ⟨h1, h2⟩ := h
    show applyPropsToSVG (replaceAttrAll k pv ⟨renderToks toks⟩) es = _
    rw [replaceAttrAll_toks k pv toks h1, ih _ h2]
    rfl

theorem attr_mem_passToks (k pv : List Char) (toks : List Tok) (n v : List Char)
    (h : Tok.attr n v ∈ passToks k pv toks) : Tok.attr n v ∈ toks ∧ n ≠ k := by
  rw [passToks] at h
  rcases List.mem_map.mp h with ⟨t, ht, hmap⟩
  cases t with
  | gap s => simp [stepTok] at hmap
  | done m r => simp [stepTok] at hmap
  | attr m w =>
    simp only [stepTok] at hmap
    by_cases hm : m = k
    · rw [if_pos hm] at hmap
      exact absurd hmap (by simp)
    · rw [if_neg hm] at hmap
      rw [Tok.attr.injEq] at hmap
      obtain ⟨hnm, hvw⟩ := hmap
      subst hnm
      subst hvw
      exact ⟨ht, hm⟩

theorem attr_mem_foldToks : ∀ (entries : List (String × String)) (toks : List Tok)
    (n v : List Char), Tok.attr n v ∈ foldToks entries toks → Tok.attr n v ∈ toks := by
  intro entries
  induction entries with
  | nil => intro toks n v h; exact h
  | cons e es ih =>
    intro toks n v h
    have h' : Tok.attr n v ∈ passToks e.1.data e.2.data toks :=
      ih (passToks e.1.data e.2.data toks) n v h
    exact (attr_mem_passToks _ _ _ _ _ h').1

theorem foldToks_no_mapped_attr : ∀ (entries : List (String × String)) (toks : List Tok),
    ∀ p ∈ entries, ∀ n v, Tok.attr n v ∈ foldToks entries toks → n ≠ p.1.data := by
  intro entries
  induction entries with
  | nil => intro toks p hp; exact absurd hp (List.not_mem_nil p)
  | cons e es ih =>
    intro toks p hp n v hmem
    have hmem' : Tok.attr n v ∈ foldToks es (passToks e.1.data e.2.data toks) := hmem
    rcases List.mem_cons.mp hp with rfl | hp'
    · have h2 : Tok.attr n v ∈ passToks p.1.data p.2.data toks :=
        attr_mem_foldToks es _ n v hmem'
      exact (attr_mem_passToks _ _ _ _ _ h2).2
    · exact ih (passToks e.1.data e.2.data toks) p hp' n v hmem'

theorem splitNl_ne_nil : ∀ x : List Char, splitNl x ≠ [] := by
  intro x
  cases x with
  | nil => simp [splitNl]
  | cons c cs =>
    simp only [splitNl]
    split
    · simp
    · split <;> simp

theorem joinNl_cons_cons (c : Char) (g : List Char) (gs : List (List Char)) :
    joinNl ((c :: g) :: gs) = c :: joinNl (g :: gs) := by
  cases gs <;> rfl

theorem joinNl_cons_of_ne_nil (l : List Char) (ls : List (List Char)) (h : ls ≠ []) :
    joinNl (l :: ls) = l ++ '\n' :: joinNl ls := by
  cases ls with
  | nil => exact absurd rfl h
  | cons g gs => rfl

theorem joinNl_splitNl : ∀ x : List Char, joinNl (splitNl x) = x := by
  intro x
  induction x with
  | nil => rfl
  | cons c cs ih =>
    simp only [splitNl]
    by_cases hc : c = '\n'
    · rw [if_pos hc]
      rw [joinNl_cons_of_ne_nil [] (splitNl cs) (splitNl_ne_nil cs), ih, hc]
      rfl
    · rw [if_neg hc]
      cases h : splitNl cs with
      | nil => exact absurd h (splitNl_ne_nil cs)
      | cons g gs =>
        rw [joinNl_cons_cons, ← h, ih]

theorem mem_splitNl_no_nl : ∀ (x : List Char) (g : List Char), g ∈ splitNl x → '\n' ∉ g := by
  intro x
  induction x with
  | nil =>
    intro g hg
    simp [splitNl] at hg
    simp [hg]
  | cons c cs ih =>
    intro g hg
    simp only [splitNl] at hg
    by_cases hc : c = '\n'
    · rw [if_pos hc] at hg
      rcases List.mem_cons.mp hg with rfl | hg'
      · simp
      · exact ih g hg'
    · rw [if_neg hc] at hg
      cases h : splitNl cs with
      | nil => exact absurd h (splitNl_ne_nil cs)
      | cons g0 gs =>
        rw [h] at hg
        rcases List.mem_cons.mp hg with rfl | hg'
        · intro hmem
          rcases List.mem_cons.mp hmem with rfl | hmem'
          · exact hc rfl
          · exact ih g0 (h ▸ List.mem_cons_self g0 gs) hmem'
        · exact ih g (h ▸ List.mem_cons_of_mem g0 hg')

theorem splitNl_append_nl : ∀ x : List Char, splitNl (x ++ ['\n']) = splitNl x ++ [[]] := by
  intro x
  induction x with
  | nil => rfl
  | cons c cs ih =>
    rw [List.cons_append]
    simp only [splitNl, ih]
    by_cases hc : c = '\n'
    · rw [if_pos hc, if_pos hc]
      rfl
    · rw [if_neg hc, if_neg hc]
      cases h : splitNl cs with
      | nil => exact absurd h (splitNl_ne_nil cs)
      | cons g gs => rfl

theorem joinNl_append_nil : ∀ ls : List (List Char), ls ≠ [] →
    joinNl (ls ++ [[]]) = joinNl ls ++ ['\n'] := by
  intro ls
  induction ls with
  | nil => intro h; exact absurd rfl h
  | cons l ls ih =>
    intro _
    cases ls with
    | nil => rfl
    | cons g gs =>
      rw [List.cons_append,
        joinNl_cons_of_ne_nil l ((g :: gs) ++ [[]]) (by simp),
        joinNl_cons_of_ne_nil l (g :: gs) (by simp),
        ih (by simp)]
      simp

theorem splitNl_line : ∀ (l t : List Char), '\n' ∉ l →
    splitNl (l ++ '\n' :: t) = l :: splitNl t := by
  intro l
  induction l with
  | nil =>
    intro t _
    rw [List.nil_append]
    simp [splitNl]
  | cons c l ih =>
    intro t h
    have hc : c ≠ '\n' := fun he => h (he ▸ List.mem_cons_self c l)
    rw [List.cons_append]
    simp only [splitNl]
    rw [if_neg hc, ih t (fun hm => h (List.mem_cons_of_mem c hm))]

theorem splitNl_single (l : List Char) (h : '\n' ∉ l) : splitNl l = [l] := by
  induction l with
  | nil => rfl
  | cons c l ih =>
    have hc : c ≠ '\n' := fun he => h (he ▸ List.mem_cons_self c l)
    simp only [splitNl]
    rw [if_neg hc, ih (fun hm => h (List.mem_cons_of_mem c hm))]

theorem splitNl_joinNl : ∀ ls : List (List Char), ls ≠ [] → (∀ l ∈ ls, '\n' ∉ l) →
    splitNl (joinNl ls) = ls := by
  intro ls
  induction ls with
  | nil => intro h; exact absurd rfl h
  | cons l ls ih =>
    intro _ hno
    cases ls with
    | nil => exact splitNl_single l (hno l (List.mem_cons_self l []))
    | cons g gs =>
      rw [joinNl_cons_of_ne_nil l (g :: gs) (by simp),
        splitNl_line l (joinNl (g :: gs)) (hno l (List.mem_cons_self l _)),
        ih (by simp) (fun m hm => hno m (List.mem_cons_of_mem l hm))]

theorem trimEndL_eq_rdrop (l : List Char) : trimEndL l = List.rdropWhile isWSChar l := rfl

theorem trimEndL_idem (l : List Char) : trimEndL (trimEndL l) = trimEndL l := by
  rw [trimEndL_eq_rdrop, trimEndL_eq_rdrop]
  exact List.rdropWhile_idempotent isWSChar l

theorem no_nl_trimEndL (l : List Char) (h : '\n' ∉ l) : '\n' ∉ trimEndL l := by
  intro hm
  exact h ((List.rdropWhile_prefix isWSChar l).sublist.subset hm)

theorem trimLinesL_append_nl (x : List Char) :
    trimLinesL (x ++ ['\n']) = trimLinesL x ++ ['\n'] := by
  rw [trimLinesL, trimLinesL, splitNl_append_nl, List.map_append]
  rw [show (([[]] : List (List Char)).map trimEndL) = [[]] from rfl]
  exact joinNl_append_nil _ (by simp [splitNl_ne_nil])

theorem splitNl_trimLinesL (x : List Char) :
    splitNl (trimLinesL x) = (splitNl x).map trimEndL := by
  rw [trimLinesL]
  apply splitNl_joinNl
  · simp [splitNl_ne_nil]
  · intro l hl
    rcases List.mem_map.mp hl with ⟨g, hg, rfl⟩
    exact no_nl_trimEndL g (mem_splitNl_no_nl x g hg)

theorem allLinesFixed_trimLinesL (x : List Char) : allLinesFixed (trimLinesL x) := by
  intro l hl
  rw [splitNl_trimLinesL] at hl
  rcases List.mem_map.mp hl with ⟨g, _, rfl⟩
  exact trimEndL_idem g

theorem trimLinesL_of_fixed (t : List Char) (h : allLinesFixed t) : trimLinesL t = t := by
  rw [trimLinesL]
  rw [List.map_congr_left (fun l hl => h l hl)]
  rw [List.map_id']
  exact joinNl_splitNl t

theorem trimEndL_fixed_tail (c : Char) (g : List Char) (h : trimEndL (c :: g) = c :: g) :
    trimEndL g = g := by
  rw [trimEndL_eq_rdrop] at h ⊢
  rw [List.rdropWhile_eq_self_iff] at h ⊢
  intro hg
  have h2 := h (by simp)
  rwa [List.getLast_cons hg] at h2

theorem allLinesFixed_tail (c : Char) (x : List Char) (h : allLinesFixed (c :: x)) :
    allLinesFixed x := by
  intro l hl
  by_cases hc : c = '\n'
  · apply h
    simp only [splitNl, if_pos hc]
    exact List.mem_cons_of_mem [] hl
  · cases hs : splitNl x with
    | nil => exact absurd hs (splitNl_ne_nil x)
    | cons g gs =>
      have hsplit : splitNl (c :: x) = (c :: g) :: gs := by
        simp only [splitNl, if_neg hc, hs]
      rw [hs] at hl
      rcases List.mem_cons.mp hl with rfl | hl'
      · have hfix := h (c :: l) (hsplit ▸ List.mem_cons_self _ _)
        exact trimEndL_fixed_tail c l hfix
      · exact h l (hsplit ▸ List.mem_cons_of_mem _ hl')

theorem allLinesFixed_dropWhile (x : List Char) (h : allLinesFixed x) :
    allLinesFixed (x.dropWhile isWSChar) := by
  induction x with
  | nil => simpa using h
  | cons c x ih =>
    rw [List.dropWhile_cons]
    by_cases hw : isWSChar c
    · rw [if_pos hw]
      exact ih (allLinesFixed_tail c x h)
    · rw [if_neg (by simp [hw])]
      exact h

theorem splitNl_eq_single_nil (x : List Char) (h : splitNl x = [[]]) : x = [] := by
  have := joinNl_splitNl x
  rw [h] at this
  exact this.symm

theorem splitNl_append : ∀ (a b : List Char) (init : List (List Char)) (last hd : List Char)
    (ht : List (List Char)),
    splitNl a = init ++ [last] → splitNl b = hd :: ht →
    splitNl (a ++ b) = init ++ (last ++ hd) :: ht := by
  intro a
  induction a with
  | nil =>
    intro b init last hd ht ha hb
    have hi : init = [] ∧ last = [] := by
      cases init with
      | nil =>
        simp only [splitNl, List.nil_append] at ha
        exact ⟨rfl, (List.cons.inj ha).1.symm⟩
      | cons i is =>
        simp only [splitNl] at ha
        have := congrArg List.length ha
        simp at this
    obtain ⟨rfl, rfl⟩ := hi
    rw [List.nil_append, hb, List.nil_append, List.nil_append]
  | cons c a ih =>
    intro b init last hd ht ha hb
    by_cases hc : c = '\n'
    · have hsa : splitNl (c :: a) = [] :: splitNl a := by
        simp only [splitNl, if_pos hc]
      rw [hsa] at ha
      cases init with
      | nil =>
        rw [List.nil_append] at ha
        have h2 : splitNl a = [] := (List.cons.inj ha).2
        exact absurd h2 (splitNl_ne_nil a)
      | cons i is =>
        rw [List.cons_append] at ha
        obtain ⟨hi, his⟩ := List.cons.inj ha
        have hrec := ih b is last hd ht his hb
        rw [List.cons_append]
        have : splitNl ('\n' :: (a ++ b)) = [] :: splitNl (a ++ b) := by
          simp [splitNl]
        rw [hc, this, hrec, ← hi]
        rfl
    · cases hsp : splitNl a with
      | nil => exact absurd hsp (splitNl_ne_nil a)
      | cons g gs =>
        have hca : splitNl (c :: a) = (c :: g) :: gs := by
          simp only [splitNl, if_neg hc, hsp]
        rw [hca] at ha
        cases init with
        | nil =>
          rw [List.nil_append] at ha
          obtain ⟨h1, h2⟩ := List.cons.inj ha
          have hrec := ih b [] g hd ht (by rw [hsp, h2]; rfl) hb
          rw [List.nil_append] at hrec
          have hfin : splitNl ((c :: a) ++ b) = (c :: (g ++ hd)) :: ht := by
            rw [List.cons_append]
            simp only [splitNl, if_neg hc, hrec]
          rw [hfin, ← h1]
          simp
        | cons i is =>
          rw [List.cons_append] at ha
          obtain ⟨h1, h2⟩ := List.cons.inj ha
          have hrec := ih b (g :: is) last hd ht (by rw [hsp, h2]; rfl) hb
          rw [List.cons_append] at hrec
          have hfin : splitNl ((c :: a) ++ b) = (c :: g) :: (is ++ (last ++ hd) :: ht) := by
            rw [List.cons_append]
            simp only [splitNl, if_neg hc, hrec]
          rw [hfin, ← h1]
          rfl

theorem trimEndL_of_last_not_ws (l : List Char) (hl : l ≠ [])
    (h : isWSChar (l.getLast hl) = false) : trimEndL l = l := by
  rw [trimEndL_eq_rdrop, List.rdropWhile_eq_self_iff]
  intro _
  simp [h]

theorem last_not_ws_of_trimEndL (l : List Char) (hl : l ≠ [])
    (h : trimEndL l = l) : isWSChar (l.getLast hl) = false := by
  rw [trimEndL_eq_rdrop, List.rdropWhile_eq_self_iff] at h
  simpa using h hl

theorem splitNl_cons_nlc (cs : List Char) : splitNl ('\n' :: cs) = [] :: splitNl cs := by
  simp [splitNl]

theorem splitNl_cons_other (c : Char) (cs : List Char) (hc : c ≠ '\n') (g : List Char)
    (gs : List (List Char)) (h : splitNl cs = g :: gs) :
    splitNl (c :: cs) = (c :: g) :: gs := by
  simp only [splitNl, if_neg hc, h]

theorem dropLast_append_getLastD : ∀ (gs : List (List Char)) (g d : List Char),
    (g :: gs).dropLast ++ [(g :: gs).getLastD d] = g :: gs := by
  intro gs
  induction gs with
  | nil => intro g d; simp [List.getLastD_cons, List.getLastD_nil]
  | cons g1 gs' ih =>
    intro g d
    rw [List.getLastD_cons]
    show (g :: (g1 :: gs').dropLast) ++ [(g1 :: gs').getLastD g] = g :: g1 :: gs'
    rw [List.cons_append, ih g1 g]

theorem lastLine_fixed (y : List Char) (hfix : trimEndL y = y) :
    trimEndL ((splitNl y).getLastD []) = (splitNl y).getLastD [] := by
  induction y with
  | nil => rfl
  | cons c y ih =>
    cases y with
    | nil =>
      have hc : isWSChar c = false := by
        have := last_not_ws_of_trimEndL [c] (by simp) hfix
        simpa using this
      have hcn : c ≠ '\n' := by
        intro he
        rw [he] at hc
        simp [isWSChar] at hc
      rw [splitNl_cons_other c [] hcn [] [] rfl]
      rw [List.getLastD_cons, List.getLastD_nil]
      exact hfix
    | cons d y' =>
      have hyne : (d :: y') ≠ [] := by simp
      have hlast : isWSChar ((d :: y').getLast hyne) = false := by
        have h2 := last_not_ws_of_trimEndL (c :: d :: y') (by simp) hfix
        rwa [List.getLast_cons hyne] at h2
      have hfy := trimEndL_of_last_not_ws (d :: y') hyne hlast
      have hrec := ih hfy
      by_cases hc : c = '\n'
      · subst hc
        rw [splitNl_cons_nlc, List.getLastD_cons]
        cases hsp : splitNl (d :: y') with
        | nil => exact absurd hsp (splitNl_ne_nil _)
        | cons g gs =>
          rw [hsp] at hrec
          cases gs with
          | nil =>
            rw [List.getLastD_cons, List.getLastD_nil] at hrec ⊢
            exact hrec
          | cons g1 gs' =>
            rw [List.getLastD_cons] at hrec ⊢
            exact hrec
      · cases hsp : splitNl (d :: y') with
        | nil => exact absurd hsp (splitNl_ne_nil _)
        | cons g gs =>
          rw [splitNl_cons_other c (d :: y') hc g gs hsp]
          rw [hsp] at hrec
          cases gs with
          | nil =>
            rw [List.getLastD_cons, List.getLastD_nil] at hrec ⊢
            cases hgnil : g with
            | nil =>
              exfalso
              rw [hgnil] at hsp
              exact hyne (splitNl_eq_single_nil (d :: y') hsp)
            | cons e g' =>
              rw [← hgnil]
              have hgne : g ≠ [] := by rw [hgnil]; simp
              apply trimEndL_of_last_not_ws (c :: g) (by simp)
              rw [List.getLast_cons hgne]
              exact last_not_ws_of_trimEndL g hgne hrec
          | cons g1 gs' =>
            rw [List.getLastD_cons, List.getLastD_cons] at hrec ⊢
            exact hrec

theorem trimEndL_decomp (x : List Char) :
    x = trimEndL x ++ (x.reverse.takeWhile isWSChar).reverse := by
  conv_lhs => rw [← List.reverse_reverse x,
    ← List.takeWhile_append_dropWhile (p := isWSChar) (l := x.reverse)]
  rw [List.reverse_append]
  rfl

theorem allLinesFixed_trimEndL (x : List Char) (h : allLinesFixed x) :
    allLinesFixed (trimEndL x) := by
  have hdecomp := trimEndL_decomp x
  intro l hl
  cases hwc : (x.reverse.takeWhile isWSChar).reverse with
  | nil =>
    rw [hwc, List.append_nil] at hdecomp
    rw [hdecomp] at h
    exact h l hl
  | cons w0 ws' =>
    rw [hwc] at hdecomp
    cases hspw : splitNl (w0 :: ws') with
    | nil => exact absurd hspw (splitNl_ne_nil _)
    | cons hd ht =>
      cases hspz : splitNl (trimEndL x) with
      | nil => exact absurd hspz (splitNl_ne_nil _)
      | cons g gs =>
        have hdec := dropLast_append_getLastD gs g []
        have happ := splitNl_append (trimEndL x) (w0 :: ws') ((g :: gs).dropLast)
          ((g :: gs).getLastD []) hd ht (by rw [hspz]; exact hdec.symm) hspw
        rw [← hdecomp] at happ
        rw [hspz, ← hdec] at hl
        rcases List.mem_append.mp hl with hinit | hlast
        · exact h l (by rw [happ]; exact List.mem_append_left _ hinit)
        · rw [List.mem_singleton] at hlast
          subst hlast
          have hfix := lastLine_fixed (trimEndL x) (trimEndL_idem x)
          rwa [hspz] at hfix

theorem trimBothL_append_nl (x : List Char) : trimBothL (x ++ ['\n']) = trimBothL x := by
  rw [trimBothL, trimBothL, List.dropWhile_append]
  by_cases he : (x.dropWhile isWSChar).isEmpty
  · rw [if_pos he]
    rw [show List.dropWhile isWSChar ['\n'] = [] from by decide]
    rw [List.isEmpty_iff] at he
    rw [he]
  · rw [if_neg he]
    rw [trimEndL_eq_rdrop, trimEndL_eq_rdrop]
    exact List.rdropWhile_concat_pos isWSChar _ '\n' (by decide)

theorem dropWhile_trimBothL_self (y : List Char) :
    (trimBothL y).dropWhile isWSChar = trimBothL y := by
  rw [trimBothL]
  cases hc : trimEndL (y.dropWhile isWSChar) with
  | nil => rfl
  | cons d ds =>
    have hpre := List.rdropWhile_prefix isWSChar (y.dropWhile isWSChar)
    rw [← trimEndL_eq_rdrop, hc] at hpre
    obtain ⟨rest, hrest⟩ := hpre
    have hu : y.dropWhile isWSChar = d :: (ds ++ rest) := by
      rw [← hrest]
      rfl
    have hne : y.dropWhile isWSChar ≠ [] := by rw [hu]; simp
    have hhead : (y.dropWhile isWSChar).head hne = d := by
      revert hne
      rw [hu]
      intro hne
      rfl
    have hd : isWSChar d = false := by
      have h2 := List.head_dropWhile_not isWSChar y hne
      rwa [hhead] at h2
    simp [List.dropWhile_cons, hd]

theorem trimBothL_idem (y : List Char) : trimBothL (trimBothL y) = trimBothL y := by
  conv_lhs => rw [trimBothL, dropWhile_trimBothL_self]
  rw [trimBothL, trimEndL_eq_rdrop, trimEndL_eq_rdrop]
  exact List.rdropWhile_idempotent isWSChar _

/-! ## The claims -/

/-- Claim C1: on the concrete round-trip input (svg root with width,
height, viewBox, fill and a path child with d and fill, options tsx /
MyIcon / all four prop flags), convertSVGToComponent returns source text
containing the props interface with the four optional props, the
destructuring signature with defaults, and a body whose root reads
width / height from the props and whose path reads fill from the color
prop. -/
theorem claim_C1_round_trip :
    containsB "interface MyIconProps \x7b" (convertSVGToComponent roundTripElem roundTripOpts) = true ∧
    containsB "width?: number | string;" (convertSVGToComponent roundTripElem roundTripOpts) = true ∧
    containsB "height?: number | string;" (convertSVGToComponent roundTripElem roundTripOpts) = true ∧
    containsB "className?: string;" (convertSVGToComponent roundTripElem roundTripOpts) = true ∧
    containsB "color?: string;" (convertSVGToComponent roundTripElem roundTripOpts) = true ∧
    containsB "export function MyIcon(\x7b width = 24, height = 24, className, color = \"currentColor\" \x7d: MyIconProps)"
      (convertSVGToComponent roundTripElem roundTripOpts) = true ∧
    containsB "<svg width=\x7bwidth\x7d height=\x7bheight\x7d viewBox=\"0 0 24 24\" fill=\x7bcolor\x7d>"
      (convertSVGToComponent roundTripElem roundTripOpts) = true ∧
    containsB "<path d=\"M12 2L2 7L12 12L22 7L12 2Z\" fill=\x7bcolor\x7d />"
      (convertSVGToComponent roundTripElem roundTripOpts) = true := by
  decide

/-- Claim C2 (counterexample): the claim fails as stated.  The body text
serialized from an element whose title attribute value ends in the text
width= contains the occurrence height="24", and the usage map built from
the width and height flags maps height; yet after applyPropsToSVG the
output no longer mentions height at all: the width pass's match starts
inside the title value and swallows the height attribute, so that
occurrence is neither left intact nor rewritten to height={height}. -/
theorem claim_C2_counterexample :
    containsB "height=\"24\"" (elementToJSX spanElem 1) = true ∧
    (buildPropsUsage spanOpts).2 = [("width", "\x7bwidth\x7d"), ("height", "\x7bheight\x7d")] ∧
    containsB "height="
      (applyPropsToSVG (elementToJSX spanElem 1) (buildPropsUsage spanOpts).2) = false := by
  decide

/-- Claim C2 (amended): on body text decomposable into segments — gaps,
intact attribute occurrences name="value", and already-templated
attributes — such that every mapped attribute's value is quote-free and
no mapped pattern attr=" begins inside any other segment (the passesOK
condition, checked pass after pass), applyPropsToSVG rewrites every
occurrence of every mapped attribute name to attrName={propReference},
globally across the whole text, and no occurrence of a mapped attribute
survives unrewritten. -/
theorem claim_C2_global_rewrite (entries : List (String × String)) (toks : List Tok)
    (h : passesOK entries toks = true) :
    applyPropsToSVG ⟨renderToks toks⟩ entries = ⟨renderToks (foldToks entries toks)⟩ ∧
    ∀ p ∈ entries, ∀ n v, Tok.attr n v ∈ foldToks entries toks → n ≠ p.1.data :=
  ⟨applyProps_toks entries toks h, foldToks_no_mapped_attr entries toks⟩

theorem claim_C2_global_rewrite_witness :
    passesOK fillEntries fillToks = true ∧
    applyPropsToSVG ⟨renderToks fillToks⟩ fillEntries
      = ⟨renderToks (foldToks fillEntries fillToks)⟩ ∧
    (⟨renderToks (foldToks fillEntries fillToks)⟩ : String)
      = "<svg fill=\x7bcolor\x7d>\n  <path fill=\x7bcolor\x7d />\n</svg>" :=
  ⟨by decide, (claim_C2_global_rewrite fillEntries fillToks (by decide)).1, by decide⟩

/-- Claim C3: for every options value the prop-schema generator emits
the requested prop descriptors in the fixed precedence width, height,
className, color (the props list's names equal the spec-side ordered
filter), and the usage map is exactly the per-flag contribution in that
order, the color flag alone contributing the two entries fill and
stroke with the same reference text. -/
theorem claim_C3_prop_precedence (o : ConversionOptions) :
    (buildPropsUsage o).1.map PropConfig.name = propOrderSpec o ∧
    (buildPropsUsage o).2 = usageSpec o := by
  obtain ⟨f, nm, ap⟩ := o
  cases ap with
  | none => exact ⟨rfl, rfl⟩
  | some a =>
    obtain ⟨w, h, c, col⟩ := a
    cases w <;> cases h <;> cases c <;> cases col <;> exact ⟨rfl, rfl⟩

/-- Claim C4: demonstration at the failing input.  For the attribute
value a"b the source emits fill="a\"b"; reading the emitted value
region with JSX/HTML attribute-value syntax (the value ends at the
first quote, backslash is an ordinary character) stops at the escaped
quote, yielding the truncated value a\ and the stray text b" — the
attribute syntax is not well-formed, contradicting the claim that the
escaping keeps it well-formed. -/
theorem claim_C4_escaping_breaks :
    escAttr "a\"b" = "a\\\"b" ∧
    attrPiece "fill" "a\"b" = "fill=\"a\\\"b\"" ∧
    jsxValScan ((escAttr "a\"b").data ++ ['"']) = some (['a', '\\'], ['b', '"']) ∧
    jsxValScan ((escAttr "a\"b").data ++ ['"']) ≠ some ((escAttr "a\"b").data, []) := by
  decide

theorem convertAttributes_filterMap (attrs : List (String × String)) :
    convertAttributes attrs = String.intercalate " " (attrs.filterMap renderAttrSpec) := by
  rw [convertAttributes, convertAttributes_foldl]
  rfl

/-- Claim C5: convertAttributes renders exactly the per-attribute rule
of the spec — skip xmlns and xmlns:svg, translate the name, emit a bare
boolean attribute when the value is empty or equals the translated
name, otherwise emit name="escaped-value" — as the space-joined
filterMap of renderAttrSpec over the attribute list. -/
theorem claim_C5_attr_rendering (attrs : List (String × String)) :
    convertAttributes attrs = String.intercalate " " (attrs.filterMap renderAttrSpec) :=
  convertAttributes_filterMap attrs

/-- Claim C7: formatCode (trim each line's trailing whitespace, trim the
whole text, append one newline) is idempotent. -/
theorem claim_C7_formatCode_idem (s : String) :
    formatCode (formatCode s) = formatCode s := by
  apply String.ext
  show trimBothL (trimLinesL (trimBothL (trimLinesL s.data) ++ ['\n'])) ++ ['\n']
      = trimBothL (trimLinesL s.data) ++ ['\n']
  rw [trimLinesL_append_nl, trimBothL_append_nl]
  have hfix : allLinesFixed (trimBothL (trimLinesL s.data)) :=
    allLinesFixed_trimEndL _ (allLinesFixed_dropWhile _ (allLinesFixed_trimLinesL s.data))
  rw [trimLinesL_of_fixed _ hfix]
  rw [trimBothL_idem]

/-- Claim C9: the templating pass matches without a word boundary — with
only the width flag set, the serialized attribute data-width="5" is
rewritten to data-width={width} in the final component text, although
data-width is not a key of the usage map. -/
theorem claim_C9_data_width :
    containsB "data-width=\"5\"" (elementToJSX dataWidthElem 1) = true ∧
    containsB "data-width=\x7bwidth\x7d" (convertSVGToComponent dataWidthElem widthOnlyOpts) = true ∧
    "data-width" ∉ (buildPropsUsage widthOnlyOpts).2.map Prod.fst := by
  decide

theorem convert_shape (el : Elem) (o : ConversionOptions) :
    ∃ t : String, convertSVGToComponent el o
      = (generatePropTypes o).1 ++ ("export function " ++ t) := by
  refine ⟨o.componentName ++ ("(" ++
    ((if (generatePropTypes o).2.1 ≠ "" then (generatePropTypes o).2.1 else "") ++
    (") \x7b\n  return (\n" ++
    ((if (generatePropTypes o).2.2.length > 0
      then applyPropsToSVG (elementToJSX el 1) (generatePropTypes o).2.2
      else elementToJSX el 1) ++ "\n  );\n\x7d")))), ?_⟩
  rw [show ("export function " : String) = "export" ++ " function " from rfl]
  simp only [convertSVGToComponent, String.append_assoc]

/-- Claim C6: the generator is total — it is a function defined on every
element tree and every options value (including an empty componentName),
and its output always contains the component scaffold text
export function. -/
theorem claim_C6_totality (el : Elem) (o : ConversionOptions) :
    containsB "export function " (convertSVGToComponent el o) = true := by
  obtain ⟨t, ht⟩ := convert_shape el o
  rw [containsB, ht, String.data_append, String.data_append]
  exact containsL_of_mid _ _ _

/-- Claim C10: only xmlns and xmlns:svg are dropped by the serializer —
an attribute maps to no output piece exactly when its name is one of
those two — and an xmlns:xlink attribute with a non-empty value distinct
from its translated name is kept, renamed to xmlnsXlink, its value
preserved (escaped; the escaping is the identity when the value has no
double quote), in the output of convertAttributes wherever it occurs in
the attribute list. -/
theorem claim_C10_xmlns_xlink (v : String) (h1 : v ≠ "") (h2 : v ≠ "xmlnsXlink") :
    (∀ n w : String, renderAttrSpec (n, w) = none ↔ n = "xmlns" ∨ n = "xmlns:svg") ∧
    renderAttrSpec ("xmlns:xlink", v) = some ("xmlnsXlink=\"" ++ escAttr v ++ "\"") ∧
    ('"' ∉ v.data → escAttr v = v) ∧
    ∀ pre post : List (String × String),
      containsB ("xmlnsXlink=\"" ++ escAttr v ++ "\"")
        (convertAttributes (pre ++ ("xmlns:xlink", v) :: post)) = true := by
  have hskip : ¬(("xmlns:xlink" : String) = "xmlns" ∨ ("xmlns:xlink" : String) = "xmlns:svg") := by
    decide
  have htr : translateAttr "xmlns:xlink" = "xmlnsXlink" := by decide
  have hpiece : renderAttrSpec ("xmlns:xlink", v) = some ("xmlnsXlink=\"" ++ escAttr v ++ "\"") := by
    rw [renderAttrSpec_eq]
    rw [if_neg hskip]
    rw [attrPiece]
    simp only [htr]
    rw [if_neg (fun h => h.elim (fun ha => h1 ha) (fun hb => h2 hb))]
    rfl
  refine ⟨?_, hpiece, ?_, ?_⟩
  · intro n w
    rw [renderAttrSpec_eq]
    constructor
    · intro h
      by_contra hc
      rw [if_neg hc] at h
      exact absurd h (by simp)
    · intro h
      rw [if_pos h]
  · intro hq
    apply String.ext
    show escAttrL v.data = v.data
    exact escAttrL_id v.data (fun c hc he => hq (he ▸ hc))
  · intro pre post
    rw [convertAttributes_filterMap]
    rw [List.filterMap_append, List.filterMap_cons, hpiece]
    obtain ⟨u, w', hw⟩ := intercalate_mid " " ("xmlnsXlink=\"" ++ escAttr v ++ "\"")
      (pre.filterMap renderAttrSpec) (post.filterMap renderAttrSpec)
    rw [containsB, hw]
    exact containsL_of_mid _ _ _

theorem claim_C10_xmlns_xlink_witness :
    ("http://www.w3.org/1999/xlink" : String) ≠ "" ∧
    renderAttrSpec ("xmlns:xlink", "http://www.w3.org/1999/xlink")
      = some ("xmlnsXlink=\"" ++ escAttr "http://www.w3.org/1999/xlink" ++ "\"") ∧
    containsB ("xmlnsXlink=\"" ++ escAttr "http://www.w3.org/1999/xlink" ++ "\"")
      (convertAttributes
        [("xmlns", "http://www.w3.org/2000/svg"),
         ("xmlns:xlink", "http://www.w3.org/1999/xlink"), ("width", "24")]) = true :=
  ⟨by decide,
   (claim_C10_xmlns_xlink "http://www.w3.org/1999/xlink" (by decide) (by decide)).2.1,
   (claim_C10_xmlns_xlink "http://www.w3.org/1999/xlink" (by decide) (by decide)).2.2.2
     [("xmlns", "http://www.w3.org/2000/svg")] [("width", "24")]⟩

theorem hflags_of_anyFlag_false (o : ConversionOptions) (h : anyFlag o = false) :
    flagWidth o = false ∧ flagHeight o = false ∧ flagClassName o = false ∧ flagColor o = false := by
  rw [anyFlag] at h
  have h2 := h
  simp only [Bool.or_eq_false_iff] at h2
  exact ⟨h2.1.1.1, h2.1.1.2, h2.1.2, h2.2⟩

theorem generatePropTypes_no_flags (o : ConversionOptions) (h : anyFlag o = false) :
    generatePropTypes o = ("", "", []) := by
  obtain ⟨hw, hh, hc, hcol⟩ := hflags_of_anyFlag_false o h
  rw [generatePropTypes, buildPropsUsage]
  simp [hw, hh, hc, hcol]

theorem interface_text_ne_empty (nm s : String) :
    ("interface " ++ nm ++ "Props \x7b\n  " ++ s ++ "\n\x7d\n\n" : String) ≠ "" := by
  apply str_ne_empty_of_data
  apply str_data_ne_of_app_left
  apply str_data_ne_of_app_left
  apply str_data_ne_of_app_left
  apply str_data_ne_of_app_left
  decide

theorem buildProps_ne_nil_of_anyFlag (o : ConversionOptions) (h : anyFlag o = true) :
    (buildPropsUsage o).1.length ≠ 0 := by
  cases hw : flagWidth o <;> cases hh : flagHeight o <;> cases hc : flagClassName o <;>
    cases hcol : flagColor o <;>
    simp_all [buildPropsUsage, anyFlag]

theorem genPi_ne_of_tsx_flag (o : ConversionOptions) (hf : o.format = Format.tsx)
    (haf : anyFlag o = true) : (generatePropTypes o).1 ≠ "" := by
  rw [generatePropTypes]
  rw [if_neg (buildProps_ne_nil_of_anyFlag o haf)]
  show (if o.format = Format.tsx then _ else "") ≠ ""
  rw [if_pos hf]
  exact interface_text_ne_empty _ _

theorem genPi_empty_of_jsx (o : ConversionOptions) (hf : o.format = Format.jsx) :
    (generatePropTypes o).1 = "" := by
  rw [generatePropTypes]
  by_cases hpl : (buildPropsUsage o).1.length = 0
  · rw [if_pos hpl]
  · rw [if_neg hpl]
    show (if o.format = Format.tsx then _ else "") = ""
    rw [if_neg (by rw [hf]; intro hc; exact Format.noConfusion hc)]

/-- Claim C8: with no prop flags set, the generator returns empty props
interface text, empty destructuring text and an empty usage map, and
the assembled component is an exported function with no parameters
around the untouched serialized body; and the interface block is
non-empty exactly when the dialect is tsx and at least one prop flag is
set — never in the jsx dialect, never without flags. -/
theorem claim_C8_no_props (el : Elem) (o : ConversionOptions) :
    (anyFlag o = false →
      generatePropTypes o = ("", "", []) ∧
      convertSVGToComponent el o =
        "export function " ++ o.componentName ++ "() \x7b\n  return (\n" ++
          elementToJSX el 1 ++ "\n  );\n\x7d") ∧
    ((generatePropTypes o).1 ≠ "" ↔ o.format = Format.tsx ∧ anyFlag o = true) := by
  constructor
  · intro hnf
    have hgen := generatePropTypes_no_flags o hnf
    refine ⟨hgen, ?_⟩
    rw [convertSVGToComponent, hgen]
    apply String.ext
    rw [show ("export function " : String) = "export" ++ " function " from rfl,
      show ("() \x7b\n  return (\n" : String) = "(" ++ ") \x7b\n  return (\n" from rfl]
    simp [String.data_append, List.append_assoc]
  · constructor
    · intro hne
      rcases hfmt : o.format with _ | _
      · refine ⟨rfl, ?_⟩
        by_contra haf
        rw [Bool.not_eq_true] at haf
        have := generatePropTypes_no_flags o haf
        rw [this] at hne
        exact hne rfl
      · exact absurd (genPi_empty_of_jsx o hfmt) hne
    · rintro ⟨hf, haf⟩
      exact genPi_ne_of_tsx_flag o hf haf

theorem claim_C8_no_props_witness :
    anyFlag ⟨Format.tsx, "Icon", none⟩ = false ∧
    generatePropTypes ⟨Format.tsx, "Icon", none⟩ = ("", "", []) ∧
    convertSVGToComponent (.mk "svg" [] [] "") ⟨Format.tsx, "Icon", none⟩ =
      "export function Icon() \x7b\n  return (\n  <svg />\n  );\n\x7d" :=
  ⟨by decide,
   ((claim_C8_no_props (.mk "svg" [] [] "") ⟨Format.tsx, "Icon", none⟩).1 (by decide)).1,
   (((claim_C8_no_props (.mk "svg" [] [] "") ⟨Format.tsx, "Icon", none⟩).1 (by decide)).2).trans
     (by decide)⟩
